import Mathlib

/-!
Verification of the Premier-league infringing-IP detector.

The development shallowly embeds the two numeric stages of the repository:

* the candidate-detection stage `model_one`
  (src/dags/scripts/pl_uk_ip_piracy_report_detection/pl_uk_ip_piracy_report_detection.py):
  top-talker filtering, min-max normalization, rolling-mean smoothing with a
  backward shift, lag-4 differencing, window selection from the kickoff
  time-of-day, and thresholded exceed-counting with a ranked candidate list;

* the attribution stage `construct_output_df`
  (src/dags/scripts/pl_uk_ip_piracy_report_traffic/pl_uk_ip_piracy_report_traffic.py):
  endpoint-metadata canonicalization, per-(ip, timestamp) aggregation, the
  pre-match noise baseline, the in-match piracy computation, and the final
  metadata join.

Bandwidth values are embedded as rationals; pandas/NumPy NaN-aware series are
embedded as `List (Option ℚ)` with `none` for an absent / NaN entry.
Timestamps are embedded as integer minutes.
-/

/-! ### Detection stage: per-endpoint series transforms -/

/-- Pandas `ip_pivot.max()` over one endpoint column before `fillna(0)`: the maximum
over the present (non-NaN) samples, `none` when every sample is absent
(pandas yields NaN for an all-NaN column). -/
def rawMax (l : List (Option ℚ)) : Option ℚ :=
  l.foldl
    (fun acc v =>
      match acc, v with
      | none, w => w
      | some m, none => some m
      | some m, some x => some (max m x))
    none

/-- The top-talker test `ip_pivot.max() > 0.02` (line 79 of the detection
script); a NaN maximum compares `False` in pandas, hence `none ↦ false`. -/
def keepTopTalker (l : List (Option ℚ)) : Bool :=
  match rawMax l with
  | none => false
  | some m => decide ((1 : ℚ) / 50 < m)

/-- The filter `ip_pivot = ip_pivot[ip_pivot.columns[ip_pivot.max() > 0.02]]`:
keep exactly the endpoints whose raw maximum exceeds 0.02. -/
def top_talker_filter (eps : List (ℕ × List (Option ℚ))) : List (ℕ × List (Option ℚ)) :=
  eps.filter (fun p => keepTopTalker p.2)

/-- Pandas `ip_pivot.fillna(0)`: absent samples become 0. -/
def fillna (l : List (Option ℚ)) : List ℚ :=
  l.map (fun v => v.getD 0)

/-- Sklearn `preprocessing.minmax_scale` on one endpoint column:
`(v - min) / (max - min)`, with a zero range replaced by 1 (sklearn's
`_handle_zeros_in_scale`), so a constant column maps to all zeros. -/
def minmax_scale (l : List ℚ) : List ℚ :=
  match l with
  | [] => []
  | x :: xs =>
    let mn := xs.foldl min x
    let mx := xs.foldl max x
    if mx = mn then (x :: xs).map (fun v => v - mn)
    else (x :: xs).map (fun v => (v - mn) / (mx - mn))

/-- One endpoint column of `ips_normalized`: fill absent samples with 0, then
min-max rescale (lines 80–88 of the detection script). -/
def normalized_series (l : List (Option ℚ)) : List ℚ :=
  minmax_scale (fillna l)

/-- Pandas `.rolling(window=8).mean()` on one endpoint column: the trailing mean of
the 8 samples ending at each position, `none` for the first 7 positions
(`min_periods` defaults to the window width). -/
def rollingMean8 (l : List ℚ) : List (Option ℚ) :=
  (List.range l.length).map
    (fun t => if 7 ≤ t then some (((l.drop (t - 7)).take 8).sum / 8) else none)

/-- Pandas `.shift(periods=-4)`: position `t` takes the value formerly at `t + 4`;
the last 4 positions become `none`. -/
def shiftm4 (l : List (Option ℚ)) : List (Option ℚ) :=
  (List.range l.length).map (fun t => l.getD (t + 4) none)

/-- The series `ips_smoothed` (line 90): rolling 8-mean then backward shift by 4.
The preceding `groupby(index).mean()` is the identity here because the pivot
index is already unique. -/
def ips_smoothed (l : List ℚ) : List (Option ℚ) :=
  shiftm4 (rollingMean8 l)

/-- Pandas `.diff(periods=4)` on an Option-valued series: `none` for the first 4
positions, otherwise the difference of the values at `t` and `t - 4`, with
`none` propagating (NaN arithmetic). -/
def diff4 (l : List (Option ℚ)) : List (Option ℚ) :=
  (List.range l.length).map
    (fun t =>
      if 4 ≤ t then
        match l.getD t none, l.getD (t - 4) none with
        | some a, some b => some (a - b)
        | _, _ => none
      else none)

/-- The series `ips_d` (line 91): the lag-4 difference of the smoothed series. -/
def ips_d (l : List ℚ) : List (Option ℚ) :=
  diff4 (ips_smoothed l)

/-! ### Detection stage: window selection -/

/-- Python `int()` applied to a rational: truncation toward zero
(`Int.tdiv` truncates toward zero). -/
def pyTrunc (q : ℚ) : ℤ :=
  q.num.tdiv (q.den : ℤ)

/-- The expression `s_idx = 12 * int(HH) + int(MM) / 5 - 6` (line 95), computed with Python
float division embedded as rational division. -/
def s_idx (hh mm : ℕ) : ℚ :=
  12 * (hh : ℚ) + (mm : ℚ) / 5 - 6

/-- The expression `e_idx = 12 * int(HH) + int(MM) / 5 + 21` (line 96). -/
def e_idx (hh mm : ℕ) : ℚ :=
  12 * (hh : ℚ) + (mm : ℚ) / 5 + 21

/-- Python `int(match_times_idx[count])` applied to the start index (line 104). -/
def start_index (hh mm : ℕ) : ℤ :=
  pyTrunc (s_idx hh mm)

/-- Python `int(match_times_idx[count + 1])` applied to the end index (line 104). -/
def end_index (hh mm : ℕ) : ℤ :=
  pyTrunc (e_idx hh mm)

/-! ### Detection stage: candidate selection -/

/-- The slice `ips_d[s:e]` for `0 ≤ s ≤ e`: positional row slicing, which clamps to the
series length like Python slicing. -/
def window_slice (d : List (Option ℚ)) (s e : ℕ) : List (Option ℚ) :=
  (d.drop s).take (e - s)

/-- The bucket test `> .1` of line 104; a NaN (absent) value compares `False`
in pandas. -/
def exceeds (v : Option ℚ) : Bool :=
  match v with
  | some x => decide ((1 : ℚ) / 10 < x)
  | none => false

/-- The count `(ips_d[s:e] > .1).sum()` for one endpoint column (line 104). -/
def exceed_count (d : List (Option ℚ)) (s e : ℕ) : ℕ :=
  (window_slice d s e).countP exceeds

/-- The per-endpoint exceed counts over the match window for endpoints given
with their differenced series. -/
def exceed_counts (eps : List (ℕ × List (Option ℚ))) (s e : ℕ) : List (ℕ × ℕ) :=
  eps.map (fun p => (p.1, exceed_count p.2 s e))

/-- The descending-by-count order in which the ranked list comes out. -/
def countGe (x y : ℕ × ℕ) : Prop :=
  y.2 ≤ x.2

instance : DecidableRel countGe := fun x y => Nat.decLe y.2 x.2

instance : IsTotal (ℕ × ℕ) countGe := ⟨fun a b => le_total b.2 a.2⟩

instance : IsTrans (ℕ × ℕ) countGe := ⟨fun _ _ _ hab hbc => le_trans hbc hab⟩

/-- The ascending-by-count order of the argsort underlying
`sort_values(ascending=False)`. -/
def countLe (x y : ℕ × ℕ) : Prop :=
  x.2 ≤ y.2

instance : DecidableRel countLe := fun x y => Nat.decLe x.2 y.2

instance : IsTotal (ℕ × ℕ) countLe := ⟨fun a b => le_total a.2 b.2⟩

instance : IsTrans (ℕ × ℕ) countLe := ⟨fun _ _ _ hab hbc => le_trans hab hbc⟩

/-- The ranked list `ip_pirate_list[ip_pirate_list > 10].sort_values(ascending=False)`
(line 105): keep endpoints whose count strictly exceeds 10 and sort them
descending by count. Pandas implements the descending sort by computing an
ascending argsort and reversing it (`nargsort`: `indexer = indexer[::-1]`),
so it is embedded as an ascending sort followed by `reverse`; the ascending
argsort is embedded as stable (numpy's quicksort is insertion sort on small
arrays), so tied counts come out in reversed endpoint-identity order. -/
def ip_pirate_list (eps : List (ℕ × List (Option ℚ))) (s e : ℕ) : List (ℕ × ℕ) :=
  (List.insertionSort countLe
    ((exceed_counts eps s e).filter (fun q => decide (10 < q.2)))).reverse

/-! ### Attribution stage: data model -/

/-- One row of `input_ip_traffic_df`: the raw traffic row shape consumed by
`construct_output_df` (ip, asn metadata, timestamp in minutes, gigabits). -/
structure RawRow where
  ip : ℕ
  asn : Option ℤ
  as_name : Option String
  analyse : Bool
  vpn : Bool
  vpn_name : Option String
  timestamp : ℤ
  gigabits : ℚ
deriving DecidableEq

/-- One row of `clean_ip_traffic_df` (ip, timestamp, aggregated gigabits). -/
structure CleanRow where
  ip : ℕ
  timestamp : ℤ
  gigabits : ℚ
deriving DecidableEq

/-- One row of `processed_ip_traffic_df` after the piracy columns are added. -/
structure ProcRow where
  ip : ℕ
  timestamp : ℤ
  gigabits : ℚ
  noise_gigabits : ℚ
  piracy_gigabits : ℚ
  gbps : ℚ
  piracy_gbps : ℚ
deriving DecidableEq

/-- One row of `output_ip_traffic_df`: canonical metadata, match context, and
the processed traffic columns. -/
structure OutRow where
  ip : ℕ
  asn : Option ℤ
  as_name : Option String
  analyse : Bool
  vpn : Bool
  vpn_name : Option String
  season : String
  game_week : ℤ
  ko_timestamp : ℤ
  timestamp : ℤ
  gigabits : ℚ
  piracy_gigabits : ℚ
  gbps : ℚ
  piracy_gbps : ℚ
deriving DecidableEq

/-! ### Attribution stage: metadata canonicalization (`base_df`) -/

/-- The ordering of `sort_values('asn', na_position='first')`: nulls before
every value, values ascending. -/
def asnLe (a b : Option ℤ) : Bool :=
  match a, b with
  | none, _ => true
  | some _, none => false
  | some x, some y => decide (x ≤ y)

/-- The row ordering used to sort `base_df` by `asn`. -/
def asnRel (r s : RawRow) : Prop :=
  asnLe r.asn s.asn = true

instance : DecidableRel asnRel := fun r s => instDecidableEqBool (asnLe r.asn s.asn) true

instance : IsTotal RawRow asnRel :=
  ⟨fun r s => by
    rw [asnRel, asnRel]
    cases hr : r.asn with
    | none => left; rfl
    | some x =>
      cases hs : s.asn with
      | none => right; rfl
      | some y =>
        rcases le_total x y with h | h
        · left; simpa [asnLe]
        · right; simpa [asnLe]⟩

instance : IsTrans RawRow asnRel :=
  ⟨fun r s t hrs hst => by
    rw [asnRel] at hrs hst ⊢
    cases hr : r.asn with
    | none => rfl
    | some x =>
      rw [hr] at hrs
      cases hs : s.asn with
      | none => rw [hs] at hrs; exact absurd hrs (by simp [asnLe])
      | some y =>
        rw [hs] at hrs hst
        cases ht : t.asn with
        | none => rw [ht] at hst; exact absurd hst (by simp [asnLe])
        | some z =>
          rw [ht] at hst
          simp only [asnLe, decide_eq_true_eq] at hrs hst
          simpa [asnLe] using le_trans hrs hst⟩

/-- Pandas `sort_values('asn', na_position='first')` on the metadata columns,
embedded as a stable sort. -/
def sort_by_asn (rows : List RawRow) : List RawRow :=
  List.insertionSort asnRel rows

/-- Pandas `drop_duplicates(subset=['ip'], keep='last')`: keep a row exactly when no
later row has the same ip. -/
def drop_dup_keep_last : List RawRow → List RawRow
  | [] => []
  | r :: rs =>
    if rs.any (fun s => decide (s.ip = r.ip)) then drop_dup_keep_last rs
    else r :: drop_dup_keep_last rs

/-- The frame `base_df` (lines 211–219): sort by asn nulls-first, then keep the last
occurrence per ip. -/
def base_df (rows : List RawRow) : List RawRow :=
  drop_dup_keep_last (sort_by_asn rows)

/-! ### Attribution stage: cleaning, noise, piracy -/

/-- The frame `clean_ip_traffic_df` (lines 229–233): group by (ip, timestamp) and sum
the gigabits, one row per present (ip, timestamp) pair. -/
def clean_rows (rows : List RawRow) : List CleanRow :=
  ((rows.map (fun r => (r.ip, r.timestamp))).dedup).map
    (fun k =>
      { ip := k.1, timestamp := k.2,
        gigabits :=
          ((rows.filter
              (fun r => decide (r.ip = k.1) && decide (r.timestamp = k.2))).map
            (fun r => r.gigabits)).sum })

/-- The pre-match quiet-window filter
`ko - 90min ≤ timestamp < ko - 30min` (lines 240–243). -/
def noise_window (clean : List CleanRow) (ko : ℤ) : List CleanRow :=
  clean.filter
    (fun r => decide (ko - 90 ≤ r.timestamp) && decide (r.timestamp < ko - 30))

/-- The frame `noise_df` (lines 239–251): group the quiet-window rows by ip and apply
`lambda x: x.sum() / 12`, the fixed-denominator mean. -/
def noise_df (clean : List CleanRow) (ko : ℤ) : List (ℕ × ℚ) :=
  (((noise_window clean ko).map (fun r => r.ip)).dedup).map
    (fun ip =>
      (ip,
        (((noise_window clean ko).filter (fun r => decide (r.ip = ip))).map
          (fun r => r.gigabits)).sum / 12))

/-- The left merge with `noise_df` followed by
`fillna(value={'noise_gigabits': 0})` (lines 258–260): an ip absent from
`noise_df` gets noise 0. -/
def lookup_noise (nd : List (ℕ × ℚ)) (ip : ℕ) : ℚ :=
  match nd.find? (fun p => decide (p.1 = ip)) with
  | some p => p.2
  | none => 0

/-- The in-match window filter `ko ≤ timestamp < ko + 110min`
(lines 255–257). -/
def match_window (clean : List CleanRow) (ko : ℤ) : List CleanRow :=
  clean.filter
    (fun r => decide (ko ≤ r.timestamp) && decide (r.timestamp < ko + 110))

/-- The frame `processed_ip_traffic_df` (lines 254–279): restrict to the in-match
window, join the noise baseline, and compute
`piracy_gigabits = clip(gigabits - noise, lower=0)`, `gbps = gigabits / 300`,
`piracy_gbps = piracy_gigabits / 300`. -/
def processed_rows (clean : List CleanRow) (ko : ℤ) : List ProcRow :=
  (match_window clean ko).map
    (fun r =>
      let n := lookup_noise (noise_df clean ko) r.ip
      { ip := r.ip, timestamp := r.timestamp, gigabits := r.gigabits,
        noise_gigabits := n,
        piracy_gigabits := max (r.gigabits - n) 0,
        gbps := r.gigabits / 300,
        piracy_gbps := max (r.gigabits - n) 0 / 300 })

/-- One joined output row: metadata from the canonical `base_df` row, match
context, and the processed traffic columns. -/
def join_row (b : RawRow) (season : String) (gw ko : ℤ) (p : ProcRow) : OutRow :=
  { ip := b.ip, asn := b.asn, as_name := b.as_name, analyse := b.analyse,
    vpn := b.vpn, vpn_name := b.vpn_name, season := season, game_week := gw,
    ko_timestamp := ko, timestamp := p.timestamp, gigabits := p.gigabits,
    piracy_gigabits := p.piracy_gigabits, gbps := p.gbps,
    piracy_gbps := p.piracy_gbps }

/-- The function `construct_output_df` (lines 180–288): `base_df.merge(processed, on='ip')`,
pairing every canonical metadata row with the processed rows of its ip. -/
def construct_output_df (rows : List RawRow) (ko : ℤ) (season : String) (gw : ℤ) :
    List OutRow :=
  (base_df rows).flatMap
    (fun b =>
      ((processed_rows (clean_rows rows) ko).filter (fun p => decide (p.ip = b.ip))).map
        (join_row b season gw ko))


/-! ### Concrete inputs used by the witnesses -/

/-- The concrete traffic used in the C1 witness: one pre-match bucket with 24
gigabits (so the noise baseline is 2) and one in-match bucket with 5. -/
def c1Clean : List CleanRow := [⟨7, -90, 24⟩, ⟨7, 0, 5⟩]

/-- The attributed row the code produces for `c1Clean`. -/
def c1Row : ProcRow := ⟨7, 0, 5, 2, 3, 1/60, 1/100⟩

/-- The concrete quiet-window traffic of the C4 witness: 12 buckets for
endpoint 7 with gigabits 10, 0, ..., 0. -/
def c4Clean : List CleanRow :=
  (List.range 12).map (fun i => ⟨7, -90 + 5 * (i : ℤ), if i = 0 then 10 else 0⟩)

/-- The concrete endpoint matrix of the C5 witness. -/
def c5Eps : List (ℕ × List (Option ℚ)) :=
  [(0, [some 1, some 3]), (1, [some (1 / 100)]), (2, [none, none])]

/-- The 12-bucket ramp used in the C6 witness. -/
def c6L : List ℚ := [0, 1, 2, 3, 4, 5, 6, 7, 8, 9, 10, 11]

/-- The two-endpoint matrix of the C2 witness: endpoint 0 exceeds the rise
threshold in all 12 window buckets, endpoint 1 in none. -/
def c2Eps : List (ℕ × List (Option ℚ)) :=
  [(0, List.replicate 12 (some 1)), (1, List.replicate 12 (some 0))]

/-- The tied two-endpoint matrix of the C2 counterexample: both endpoints
exceed the rise threshold in all 12 window buckets. -/
def c2TieEps : List (ℕ × List (Option ℚ)) :=
  [(0, List.replicate 12 (some 1)), (1, List.replicate 12 (some 1))]

/-- The raw traffic of the C8 witness: one endpoint with a null-asn row and a
non-null-asn row in the same in-match bucket. -/
def c8Rows : List RawRow :=
  [⟨1, none, none, true, false, none, 0, 2⟩,
   ⟨1, some 9, some "A", true, false, none, 0, 3⟩]

/-- The attributed row the code produces for `c8Rows` at kickoff 0. -/
def c8Proc : ProcRow := ⟨1, 0, 5, 0, 5, 1/60, 1/60⟩

/-- A raw metadata row whose `asn` is smaller but whose `as_name` is
non-null. -/
def c9RowA : RawRow := ⟨0, some 3, some "X", true, false, none, 0, 1⟩

/-- A raw metadata row for the same endpoint with a larger `asn` and a null
`as_name`; canonicalization keeps this row. -/
def c9RowB : RawRow := ⟨0, some 5, none, true, false, none, 0, 1⟩

/-- The two-row metadata input showing `as_name` is not independently
preferred non-null. -/
def c9Rows : List RawRow := [c9RowA, c9RowB]

/-! ### Helper lemmas -/

theorem getD_range_map {β : Type} (f : ℕ → β) (n t : ℕ) (b : β) :
    ((List.range n).map f).getD t b = if t < n then f t else b := by
  rw [List.getD_eq_getElem?_getD, List.getElem?_map]
  by_cases h : t < n
  · rw [List.getElem?_range h]
    simp [h]
  · have hlen : (List.range n).length ≤ t := by
      simpa using Nat.le_of_not_lt h
    rw [List.getElem?_eq_none hlen]
    simp [h]

theorem pyTrunc_intCast (n : ℤ) : pyTrunc ((n : ℤ) : ℚ) = n := by
  simp [pyTrunc]

theorem start_index_eq (hh mm : ℕ) (h : mm % 5 = 0) :
    start_index hh mm = 12 * (hh : ℤ) + ((mm / 5 : ℕ) : ℤ) - 6 := by
  obtain ⟨k, rfl⟩ := Nat.dvd_of_mod_eq_zero h
  rw [Nat.mul_div_cancel_left k (by norm_num : 0 < 5)]
  have hs : s_idx hh (5 * k) = ((12 * (hh : ℤ) + (k : ℤ) - 6 : ℤ) : ℚ) := by
    simp only [s_idx]
    push_cast
    ring
  rw [start_index, hs, pyTrunc_intCast]

theorem end_index_eq (hh mm : ℕ) (h : mm % 5 = 0) :
    end_index hh mm = 12 * (hh : ℤ) + ((mm / 5 : ℕ) : ℤ) + 21 := by
  obtain ⟨k, rfl⟩ := Nat.dvd_of_mod_eq_zero h
  rw [Nat.mul_div_cancel_left k (by norm_num : 0 < 5)]
  have he : e_idx hh (5 * k) = ((12 * (hh : ℤ) + (k : ℤ) + 21 : ℤ) : ℚ) := by
    simp only [e_idx]
    push_cast
    ring
  rw [end_index, he, pyTrunc_intCast]

/-! ### C1: attribution formulas -/

/-- C1: every row of `processed_ip_traffic_df` lies in the in-match window
`[kickoff, kickoff + 110min)` and satisfies
`piracy_gigabits = max (gigabits - noise_gigabits) 0`,
`gbps = gigabits / 300`, `piracy_gbps = piracy_gigabits / 300`; consequently
`piracy_gigabits ≥ 0` for every row, for all inputs including those where
the noise exceeds the raw gigabits. -/
theorem c1_attribution_formulas (clean : List CleanRow) (ko : ℤ) :
    ∀ p ∈ processed_rows clean ko,
      (ko ≤ p.timestamp ∧ p.timestamp < ko + 110) ∧
      p.piracy_gigabits = max (p.gigabits - p.noise_gigabits) 0 ∧
      p.gbps = p.gigabits / 300 ∧
      p.piracy_gbps = p.piracy_gigabits / 300 ∧
      0 ≤ p.piracy_gigabits := by
  intro p hp
  simp only [processed_rows, List.mem_map] at hp
  obtain ⟨r, hr, rfl⟩ := hp
  simp only [match_window, List.mem_filter, Bool.and_eq_true, decide_eq_true_eq] at hr
  exact ⟨hr.2, rfl, rfl, rfl, le_max_right _ _⟩

theorem c1_attribution_formulas_witness :
    (processed_rows c1Clean 0 = [c1Row] ∧
       c1Row.gigabits = 5 ∧ c1Row.noise_gigabits = 2 ∧
       c1Row.piracy_gigabits = 3 ∧ c1Row.gbps = 5 / 300 ∧
       c1Row.piracy_gbps = 3 / 300) ∧
    ((0 ≤ c1Row.timestamp ∧ c1Row.timestamp < 0 + 110) ∧
     c1Row.piracy_gigabits = max (c1Row.gigabits - c1Row.noise_gigabits) 0 ∧
     c1Row.gbps = c1Row.gigabits / 300 ∧
     c1Row.piracy_gbps = c1Row.piracy_gigabits / 300 ∧
     0 ≤ c1Row.piracy_gigabits) :=
  ⟨⟨by norm_num [processed_rows, match_window, noise_window, noise_df, lookup_noise,
        c1Clean, c1Row, List.filter, List.find?],
    by norm_num [c1Row], by norm_num [c1Row], by norm_num [c1Row],
    by norm_num [c1Row], by norm_num [c1Row]⟩,
   c1_attribution_formulas c1Clean 0 c1Row
     (by norm_num [processed_rows, match_window, noise_window, noise_df, lookup_noise,
           c1Clean, c1Row, List.filter, List.find?])⟩

/-! ### C3: window selection from kickoff time-of-day -/

/-- C3: for a kickoff `HH:MM` whose minutes are a multiple of 5 the window
selector computes `start_index = 12*HH + MM/5 - 6` and
`end_index = 12*HH + MM/5 + 21` (bucket indices relative to the start of the
match day); in particular 15:00 ↦ (174, 201) and 20:30 ↦ (240, 267). -/
theorem c3_window_selector (hh mm : ℕ) (h : mm % 5 = 0) :
    (start_index hh mm = 12 * (hh : ℤ) + ((mm / 5 : ℕ) : ℤ) - 6 ∧
     end_index hh mm = 12 * (hh : ℤ) + ((mm / 5 : ℕ) : ℤ) + 21) ∧
    start_index 15 0 = 174 ∧ end_index 15 0 = 201 ∧
    start_index 20 30 = 240 ∧ end_index 20 30 = 267 := by
  refine ⟨⟨start_index_eq hh mm h, end_index_eq hh mm h⟩, ?_, ?_, ?_, ?_⟩
  · rw [start_index_eq 15 0 (by decide)]
    decide
  · rw [end_index_eq 15 0 (by decide)]
    decide
  · rw [start_index_eq 20 30 (by decide)]
    decide
  · rw [end_index_eq 20 30 (by decide)]
    decide

theorem c3_window_selector_witness :
    0 % 5 = 0 ∧
    start_index 15 0 = 12 * (15 : ℤ) + ((0 / 5 : ℕ) : ℤ) - 6 ∧
    start_index 15 0 = 174 ∧ end_index 15 0 = 201 ∧
    start_index 20 30 = 240 ∧ end_index 20 30 = 267 :=
  ⟨by decide,
   (c3_window_selector 15 0 (by decide)).1.1,
   (c3_window_selector 15 0 (by decide)).2⟩

/-! ### C4: fixed-denominator noise baseline -/

/-- C4: the noise value recorded for an endpoint is the sum of its raw
gigabits over `[kickoff - 90min, kickoff - 30min)` divided by the fixed
denominator 12, however many samples are present in that window; an endpoint
with no sample in the window gets `noise_gigabits = 0`. -/
theorem c4_noise_baseline (clean : List CleanRow) (ko : ℤ) (ip : ℕ) :
    (∀ v, (ip, v) ∈ noise_df clean ko →
        v = (((noise_window clean ko).filter (fun r => decide (r.ip = ip))).map
              (fun r => r.gigabits)).sum / 12) ∧
    ((noise_window clean ko).filter (fun r => decide (r.ip = ip)) = [] →
        lookup_noise (noise_df clean ko) ip = 0) := by
  constructor
  · intro v hv
    simp only [noise_df, List.mem_map] at hv
    obtain ⟨a, ha, hav⟩ := hv
    simp only [Prod.mk.injEq] at hav
    obtain ⟨rfl, rfl⟩ := hav
    rfl
  · intro hempty
    have hfind : (noise_df clean ko).find? (fun p => decide (p.1 = ip)) = none := by
      rw [List.find?_eq_none]
      rintro ⟨a, v⟩ hx
      simp only [noise_df, List.mem_map] at hx
      obtain ⟨a', ha', hav⟩ := hx
      simp only [Prod.mk.injEq] at hav
      obtain ⟨rfl, -⟩ := hav
      rw [List.mem_dedup, List.mem_map] at ha'
      obtain ⟨r, hr, rfl⟩ := ha'
      simp only [decide_eq_true_eq]
      intro hip
      have hrf : r ∈ (noise_window clean ko).filter (fun s => decide (s.ip = ip)) :=
        List.mem_filter.mpr ⟨hr, by simp [hip]⟩
      rw [hempty] at hrf
      exact absurd hrf (List.not_mem_nil r)
    simp [lookup_noise, hfind]

theorem c4_noise_baseline_witness :
    ((7, (5 : ℚ) / 6) ∈ noise_df c4Clean 0 ∧
       (5 : ℚ) / 6 =
         (((noise_window c4Clean 0).filter (fun r => decide (r.ip = 7))).map
           (fun r => r.gigabits)).sum / 12) ∧
    ((noise_window c4Clean 0).filter (fun r => decide (r.ip = 9)) = [] ∧
       lookup_noise (noise_df c4Clean 0) 9 = 0) :=
  ⟨⟨by norm_num [noise_df, noise_window, c4Clean, List.filter, List.range,
       List.range.loop],
    (c4_noise_baseline c4Clean 0 7).1 ((5 : ℚ) / 6)
      (by norm_num [noise_df, noise_window, c4Clean, List.filter, List.range,
            List.range.loop])⟩,
   ⟨by norm_num [noise_window, c4Clean, List.filter, List.range, List.range.loop],
    (c4_noise_baseline c4Clean 0 9).2
      (by norm_num [noise_window, c4Clean, List.filter, List.range, List.range.loop])⟩⟩

/-! ### C5: top-talker filter and min-max normalization -/

theorem foldl_min_le (xs : List ℚ) : ∀ x : ℚ, ∀ v ∈ x :: xs, xs.foldl min x ≤ v := by
  induction xs with
  | nil =>
    intro x v hv
    simp only [List.mem_singleton] at hv
    simp [hv]
  | cons y ys ih =>
    intro x v hv
    have hfold : (y :: ys).foldl min x = ys.foldl min (min x y) := rfl
    rw [hfold]
    rcases List.mem_cons.mp hv with h | hv'
    · rw [h]
      exact le_trans (ih (min x y) (min x y) (List.mem_cons_self _ _)) (min_le_left x y)
    · rcases List.mem_cons.mp hv' with h | hv''
      · rw [h]
        exact le_trans (ih (min x y) (min x y) (List.mem_cons_self _ _)) (min_le_right x y)
      · exact ih (min x y) v (List.mem_cons_of_mem _ hv'')

theorem foldl_min_mem (xs : List ℚ) : ∀ x : ℚ, xs.foldl min x ∈ x :: xs := by
  induction xs with
  | nil => intro x; simp
  | cons y ys ih =>
    intro x
    have hfold : (y :: ys).foldl min x = ys.foldl min (min x y) := rfl
    rw [hfold]
    rcases List.mem_cons.mp (ih (min x y)) with h | h
    · rcases min_choice x y with hc | hc
      · rw [h, hc]; exact List.mem_cons_self _ _
      · rw [h, hc]; exact List.mem_cons_of_mem _ (List.mem_cons_self _ _)
    · exact List.mem_cons_of_mem _ (List.mem_cons_of_mem _ h)

theorem le_foldl_max (xs : List ℚ) : ∀ x : ℚ, ∀ v ∈ x :: xs, v ≤ xs.foldl max x := by
  induction xs with
  | nil =>
    intro x v hv
    simp only [List.mem_singleton] at hv
    simp [hv]
  | cons y ys ih =>
    intro x v hv
    have hfold : (y :: ys).foldl max x = ys.foldl max (max x y) := rfl
    rw [hfold]
    rcases List.mem_cons.mp hv with h | hv'
    · rw [h]
      exact le_trans (le_max_left x y) (ih (max x y) (max x y) (List.mem_cons_self _ _))
    · rcases List.mem_cons.mp hv' with h | hv''
      · rw [h]
        exact le_trans (le_max_right x y) (ih (max x y) (max x y) (List.mem_cons_self _ _))
      · exact ih (max x y) v (List.mem_cons_of_mem _ hv'')

theorem foldl_max_mem (xs : List ℚ) : ∀ x : ℚ, xs.foldl max x ∈ x :: xs := by
  induction xs with
  | nil => intro x; simp
  | cons y ys ih =>
    intro x
    have hfold : (y :: ys).foldl max x = ys.foldl max (max x y) := rfl
    rw [hfold]
    rcases List.mem_cons.mp (ih (max x y)) with h | h
    · rcases max_choice x y with hc | hc
      · rw [h, hc]; exact List.mem_cons_self _ _
      · rw [h, hc]; exact List.mem_cons_of_mem _ (List.mem_cons_self _ _)
    · exact List.mem_cons_of_mem _ (List.mem_cons_of_mem _ h)

theorem minmax_scale_bounds (x : ℚ) (xs : List ℚ) :
    ∀ v ∈ minmax_scale (x :: xs), 0 ≤ v ∧ v ≤ 1 := by
  intro v hv
  simp only [minmax_scale] at hv
  by_cases hc : xs.foldl max x = xs.foldl min x
  · rw [if_pos hc, List.mem_map] at hv
    obtain ⟨u, hu, rfl⟩ := hv
    have h1 := foldl_min_le xs x u hu
    have h2 := le_foldl_max xs x u hu
    rw [hc] at h2
    constructor
    · linarith
    · linarith
  · rw [if_neg hc, List.mem_map] at hv
    obtain ⟨u, hu, rfl⟩ := hv
    have h1 := foldl_min_le xs x u hu
    have h2 := le_foldl_max xs x u hu
    have hmnmx : xs.foldl min x ≤ xs.foldl max x :=
      le_trans (foldl_min_le xs x x (List.mem_cons_self _ _))
        (le_foldl_max xs x x (List.mem_cons_self _ _))
    have hlt : xs.foldl min x < xs.foldl max x := lt_of_le_of_ne hmnmx (Ne.symm hc)
    have hpos : 0 < xs.foldl max x - xs.foldl min x := by linarith
    constructor
    · apply div_nonneg _ (le_of_lt hpos)
      linarith
    · rw [div_le_one hpos]
      linarith

theorem minmax_scale_extremes (x : ℚ) (xs : List ℚ)
    (h : ∃ v ∈ x :: xs, ∃ w ∈ x :: xs, v ≠ w) :
    (0 : ℚ) ∈ minmax_scale (x :: xs) ∧ (1 : ℚ) ∈ minmax_scale (x :: xs) := by
  have hne : ¬ xs.foldl max x = xs.foldl min x := by
    intro hc
    obtain ⟨v, hv, w, hw, hvw⟩ := h
    have hv1 := foldl_min_le xs x v hv
    have hv2 := le_foldl_max xs x v hv
    have hw1 := foldl_min_le xs x w hw
    have hw2 := le_foldl_max xs x w hw
    exact hvw (by linarith)
  have hmnmx : xs.foldl min x ≤ xs.foldl max x :=
    le_trans (foldl_min_le xs x x (List.mem_cons_self _ _))
      (le_foldl_max xs x x (List.mem_cons_self _ _))
  have hpos : 0 < xs.foldl max x - xs.foldl min x :=
    by have := lt_of_le_of_ne hmnmx (Ne.symm hne); linarith
  simp only [minmax_scale, if_neg hne]
  constructor
  · rw [List.mem_map]
    refine ⟨xs.foldl min x, foldl_min_mem xs x, ?_⟩
    simp
  · rw [List.mem_map]
    refine ⟨xs.foldl max x, foldl_max_mem xs x, ?_⟩
    rw [div_self (ne_of_gt hpos)]

theorem minmax_scale_const (x : ℚ) (xs : List ℚ)
    (h : ∀ v ∈ x :: xs, ∀ w ∈ x :: xs, v = w) :
    ∀ v ∈ minmax_scale (x :: xs), v = 0 := by
  have hc : xs.foldl max x = xs.foldl min x :=
    h _ (foldl_max_mem xs x) _ (foldl_min_mem xs x)
  intro v hv
  simp only [minmax_scale, if_pos hc, List.mem_map] at hv
  obtain ⟨u, hu, rfl⟩ := hv
  have := h u hu x (List.mem_cons_self _ _)
  have hx := h x (List.mem_cons_self _ _) _ (foldl_min_mem xs x)
  rw [this, ← hx]
  ring

/-- C5: an endpoint whose raw maximum is at most 0.02 (or whose column is all
NaN) is discarded by the top-talker filter before normalization; every
surviving endpoint's normalized series lies in [0, 1], attains 0 and 1 when
the filled series is non-constant, and is identically 0 (a defined value)
when it is constant. -/
theorem c5_top_talker_normalization
    (eps : List (ℕ × List (Option ℚ))) (a : ℕ) (l : List (Option ℚ)) :
    ((a, l) ∈ eps → (∀ m, rawMax l = some m → m ≤ 1 / 50) →
        (a, l) ∉ top_talker_filter eps) ∧
    ((a, l) ∈ top_talker_filter eps →
        (∀ v ∈ normalized_series l, 0 ≤ v ∧ v ≤ 1) ∧
        ((∃ v ∈ fillna l, ∃ w ∈ fillna l, v ≠ w) →
          (0 : ℚ) ∈ normalized_series l ∧ (1 : ℚ) ∈ normalized_series l) ∧
        ((∀ v ∈ fillna l, ∀ w ∈ fillna l, v = w) →
          ∀ v ∈ normalized_series l, v = 0)) := by
  constructor
  · intro hmem hsmall hfilt
    rw [top_talker_filter, List.mem_filter] at hfilt
    have hk := hfilt.2
    rw [keepTopTalker] at hk
    cases hm : rawMax l with
    | none => rw [hm] at hk; exact Bool.noConfusion hk
    | some m =>
      rw [hm] at hk
      have := of_decide_eq_true hk
      exact absurd (hsmall m hm) (not_le.mpr this)
  · intro hfilt
    rw [top_talker_filter, List.mem_filter] at hfilt
    have hk := hfilt.2
    rw [keepTopTalker] at hk
    have hl : l ≠ [] := by
      intro hnil
      rw [hnil] at hk
      exact Bool.noConfusion hk
    have hfl : fillna l ≠ [] := by
      intro hnil
      exact hl (List.map_eq_nil_iff.mp hnil)
    obtain ⟨x, xs, hxxs⟩ := List.exists_cons_of_ne_nil hfl
    rw [normalized_series, hxxs]
    exact ⟨minmax_scale_bounds x xs,
           fun h => minmax_scale_extremes x xs (hxxs ▸ h),
           fun h => minmax_scale_const x xs (hxxs ▸ h)⟩

theorem c5_top_talker_normalization_witness :
    ((0, [some (1 : ℚ), some 3]) ∈ top_talker_filter c5Eps ∧
       (∀ v ∈ normalized_series [some (1 : ℚ), some 3], 0 ≤ v ∧ v ≤ 1) ∧
       (0 : ℚ) ∈ normalized_series [some (1 : ℚ), some 3] ∧
       (1 : ℚ) ∈ normalized_series [some (1 : ℚ), some 3]) ∧
    ((1, [some ((1 : ℚ) / 100)]) ∈ c5Eps ∧
       (1, [some ((1 : ℚ) / 100)]) ∉ top_talker_filter c5Eps) := by
  have hmem : (0, [some (1 : ℚ), some 3]) ∈ top_talker_filter c5Eps := by
    norm_num [top_talker_filter, keepTopTalker, rawMax, c5Eps, List.filter]
  have hth := (c5_top_talker_normalization c5Eps 0 [some 1, some 3]).2 hmem
  have hnc : ∃ v ∈ fillna [some (1 : ℚ), some 3], ∃ w ∈ fillna [some (1 : ℚ), some 3], v ≠ w := by
    refine ⟨1, ?_, 3, ?_, by norm_num⟩ <;> norm_num [fillna]
  refine ⟨⟨hmem, hth.1, (hth.2.1 hnc).1, (hth.2.1 hnc).2⟩, ?_, ?_⟩
  · norm_num [c5Eps]
  · exact (c5_top_talker_normalization c5Eps 1 [some (1 / 100)]).1
      (by norm_num [c5Eps])
      (by intro m hm
          norm_num [rawMax] at hm
          norm_num [← hm])

/-! ### C6: smoothing and differencing formulas -/

theorem rollingMean8_length (l : List ℚ) : (rollingMean8 l).length = l.length := by
  simp [rollingMean8]

theorem ips_smoothed_length (l : List ℚ) : (ips_smoothed l).length = l.length := by
  simp [ips_smoothed, shiftm4, rollingMean8]

theorem rollingMean8_getD (l : List ℚ) (u : ℕ) :
    (rollingMean8 l).getD u none =
      if u < l.length then
        (if 7 ≤ u then some (((l.drop (u - 7)).take 8).sum / 8) else none)
      else none := by
  rw [rollingMean8, getD_range_map]

theorem ips_smoothed_getD (l : List ℚ) (t : ℕ) :
    (ips_smoothed l).getD t none =
      if t < l.length then (rollingMean8 l).getD (t + 4) none else none := by
  rw [ips_smoothed, shiftm4, rollingMean8_length, getD_range_map]

theorem diff4_getD (x : List (Option ℚ)) (t : ℕ) :
    (diff4 x).getD t none =
      if t < x.length then
        (if 4 ≤ t then
          match x.getD t none, x.getD (t - 4) none with
          | some a, some b => some (a - b)
          | _, _ => none
         else none)
      else none := by
  rw [diff4, getD_range_map]

theorem ips_d_length (l : List ℚ) : (ips_d l).length = l.length := by
  simp [ips_d, diff4, ips_smoothed, shiftm4, rollingMean8]

/-- C6: the smoothed series is the 8-bucket rolling mean re-associated with
the bucket 4 positions back — at every defined position `t` it is the mean of
the normalized buckets `t-3 .. t+4` — and the differenced series is
`diff(t) = smoothed(t) - smoothed(t - 4)` applied to the smoothed series in
exactly that order (`ips_d l` is definitionally `diff4 (shiftm4
(rollingMean8 l))`); undefined smoothed inputs propagate to undefined diff
outputs. -/
theorem c6_smoothing_differencing (l : List ℚ) (t : ℕ) :
    (3 ≤ t → t + 5 ≤ l.length →
      (ips_smoothed l).getD t none = some (((l.drop (t - 3)).take 8).sum / 8)) ∧
    (¬ (3 ≤ t ∧ t + 5 ≤ l.length) → (ips_smoothed l).getD t none = none) ∧
    (4 ≤ t → t < l.length →
      (ips_d l).getD t none =
        match (ips_smoothed l).getD t none, (ips_smoothed l).getD (t - 4) none with
        | some a, some b => some (a - b)
        | _, _ => none) ∧
    (t < 4 → t < l.length → (ips_d l).getD t none = none) ∧
    ((ips_smoothed l).getD t none = none → (ips_d l).getD t none = none) := by
  refine ⟨?_, ?_, ?_, ?_, ?_⟩
  · intro h3 h5
    rw [ips_smoothed_getD, if_pos (by omega), rollingMean8_getD,
        if_pos (by omega : t + 4 < l.length), if_pos (by omega : 7 ≤ t + 4)]
    have harg : t + 4 - 7 = t - 3 := by omega
    rw [harg]
  · intro hno
    rw [ips_smoothed_getD]
    by_cases ht : t < l.length
    · rw [if_pos ht, rollingMean8_getD]
      by_cases h4 : t + 4 < l.length
      · rw [if_pos h4, if_neg (by omega : ¬ 7 ≤ t + 4)]
      · rw [if_neg h4]
    · rw [if_neg ht]
  · intro h4 ht
    rw [ips_d, diff4_getD, ips_smoothed_length, if_pos ht, if_pos h4]
  · intro h4 ht
    rw [ips_d, diff4_getD, ips_smoothed_length, if_pos ht, if_neg (by omega : ¬ 4 ≤ t)]
  · intro hnone
    rw [ips_d, diff4_getD, ips_smoothed_length]
    by_cases ht : t < l.length
    · rw [if_pos ht]
      by_cases h4 : 4 ≤ t
      · rw [if_pos h4, hnone]
      · rw [if_neg h4]
    · rw [if_neg ht]

theorem c6_smoothing_differencing_witness :
    ((3 ≤ 7 ∧ 7 + 5 ≤ c6L.length) ∧
       (ips_smoothed c6L).getD 7 none = some (((c6L.drop (7 - 3)).take 8).sum / 8) ∧
       ((c6L.drop (7 - 3)).take 8).sum / 8 = (15 : ℚ) / 2) ∧
    ((ips_smoothed c6L).getD 11 none = none) :=
  ⟨⟨⟨by norm_num, by norm_num [c6L]⟩,
    (c6_smoothing_differencing c6L 7).1 (by norm_num) (by norm_num [c6L]),
    by norm_num [c6L]⟩,
   (c6_smoothing_differencing c6L 11).2.1 (by norm_num [c6L])⟩

/-! ### C7: undefined buckets never exceed and detection is total -/

theorem window_slice_eq (d : List (Option ℚ)) (s e : ℕ) :
    window_slice d s e =
      (List.range' s (min (e - s) (d.length - s))).map (fun t => d.getD t none) := by
  apply List.ext_getElem
  · simp [window_slice, List.length_range', List.length_take, List.length_drop]
  · intro i h1 h2
    have hi : i < min (e - s) (d.length - s) := by
      simpa [window_slice, List.length_take, List.length_drop] using h1
    have hsi : s + i < d.length := by omega
    simp only [window_slice]
    rw [List.getElem_take, List.getElem_drop, List.getElem_map, List.getElem_range',
        one_mul, List.getD_eq_getElem d none hsi]

theorem exceed_count_eq_countP (d : List (Option ℚ)) (s e : ℕ) :
    exceed_count d s e =
      (List.range' s (e - s)).countP (fun t => exceeds (d.getD t none)) := by
  rw [exceed_count, window_slice_eq, List.countP_map]
  rcases le_total (e - s) (d.length - s) with hm | hm
  · rw [min_eq_left hm]
    rfl
  · rw [min_eq_right hm]
    have hsplit : List.range' s (e - s) =
        List.range' s (d.length - s) ++
          List.range' (s + (d.length - s)) ((e - s) - (d.length - s)) := by
      have happ := List.range'_append s (d.length - s) ((e - s) - (d.length - s)) 1
      rw [one_mul] at happ
      have hn : e - s = ((e - s) - (d.length - s)) + (d.length - s) := by omega
      conv_lhs => rw [hn]
      exact happ.symm
    rw [hsplit, List.countP_append]
    have hzero : (List.range' (s + (d.length - s)) ((e - s) - (d.length - s))).countP
        (fun t => exceeds (d.getD t none)) = 0 := by
      rw [List.countP_eq_zero]
      intro t ht
      rw [List.mem_range'_1] at ht
      have hlen : d.length ≤ t := by omega
      rw [List.getD_eq_getElem?_getD, List.getElem?_eq_none hlen]
      simp [exceeds]
    rw [hzero]
    rfl

/-- C7: a bucket whose differenced value is undefined (NaN) never exceeds the
rise threshold — the exceed count over any window equals the count of indices
whose value is present and exceeds 0.1, so an undefined bucket contributes 0
without being read as a zero value — and counting is total and bounded by the
window length, for every series including ones with undefined buckets. -/
theorem c7_undefined_never_exceed (d : List (Option ℚ)) (s e : ℕ) :
    exceeds none = false ∧
    exceed_count d s e =
      (List.range' s (e - s)).countP (fun t => exceeds (d.getD t none)) ∧
    exceed_count d s e ≤ e - s := by
  refine ⟨rfl, exceed_count_eq_countP d s e, ?_⟩
  calc exceed_count d s e ≤ (window_slice d s e).length := List.countP_le_length _
  _ ≤ e - s := List.length_take_le _ _

/-! ### C2: exceed counting, filtering and ranking -/

theorem orderedInsert_countLe_filter (a : ℕ × ℕ) (c : ℕ) :
    ∀ L : List (ℕ × ℕ),
      (L.orderedInsert countLe a).filter (fun q => decide (q.2 = c)) =
        if a.2 = c then a :: L.filter (fun q => decide (q.2 = c))
        else L.filter (fun q => decide (q.2 = c)) := by
  intro L
  induction L with
  | nil =>
    rw [List.orderedInsert_nil, List.filter_cons, List.filter_nil]
    by_cases hc : a.2 = c
    · rw [if_pos (by simpa using hc), if_pos hc]
    · rw [if_neg (by simpa using hc), if_neg hc]
  | cons b L ih =>
    rw [List.orderedInsert]
    by_cases hab : countLe a b
    · rw [if_pos hab, List.filter_cons]
      by_cases hc : a.2 = c
      · rw [if_pos (by simpa using hc), if_pos hc]
      · rw [if_neg (by simpa using hc), if_neg hc]
    · rw [if_neg hab, List.filter_cons, ih, List.filter_cons]
      have hb2 : b.2 < a.2 := by
        rw [countLe] at hab
        omega
      by_cases hc : a.2 = c
      · have hbc : ¬ b.2 = c := by omega
        rw [if_neg (by simpa using hbc), if_pos hc, if_pos hc,
            if_neg (by simpa using hbc)]
      · rw [if_neg hc, if_neg hc]

theorem insertionSort_countLe_filter (L : List (ℕ × ℕ)) (c : ℕ) :
    (List.insertionSort countLe L).filter (fun q => decide (q.2 = c)) =
      L.filter (fun q => decide (q.2 = c)) := by
  induction L with
  | nil => rfl
  | cons a L ih =>
    rw [List.insertionSort, orderedInsert_countLe_filter, List.filter_cons]
    by_cases hc : a.2 = c
    · rw [if_pos hc, if_pos (by simpa using hc), ih]
    · rw [if_neg hc, if_neg (by simpa using hc), ih]

/-- C2 (amended): each endpoint's `exceed_count` is the number of window
buckets whose differenced value strictly exceeds 0.1; exactly the endpoints
with `exceed_count > 10` are kept; the ranked list is sorted descending by
count with ties in the reverse of endpoint-identity (input) order — the
descending sort is the reversal of an ascending argsort, so the filtered
subsequence at each count value comes out reversed — and every count is at
most the window length. -/
theorem c2_candidate_detector (eps : List (ℕ × List (Option ℚ))) (s e : ℕ) :
    exceed_counts eps s e =
      eps.map (fun p =>
        (p.1, (List.range' s (e - s)).countP (fun t => exceeds (p.2.getD t none)))) ∧
    (∀ q : ℕ × ℕ, q ∈ ip_pirate_list eps s e ↔ q ∈ exceed_counts eps s e ∧ 10 < q.2) ∧
    List.Sorted countGe (ip_pirate_list eps s e) ∧
    (∀ c, (ip_pirate_list eps s e).filter (fun q => decide (q.2 = c)) =
        (((exceed_counts eps s e).filter (fun q => decide (10 < q.2))).filter
          (fun q => decide (q.2 = c))).reverse) ∧
    (∀ q ∈ ip_pirate_list eps s e, q.2 ≤ e - s) := by
  refine ⟨?_, ?_, ?_, ?_, ?_⟩
  · rw [exceed_counts]
    apply List.map_congr_left
    intro p _
    rw [exceed_count_eq_countP]
  · intro q
    rw [ip_pirate_list, List.mem_reverse, List.mem_insertionSort, List.mem_filter,
        decide_eq_true_eq]
  · rw [ip_pirate_list]
    exact List.pairwise_reverse.mpr (List.sorted_insertionSort countLe _)
  · intro c
    rw [ip_pirate_list, List.filter_reverse, insertionSort_countLe_filter]
  · intro q hq
    rw [ip_pirate_list, List.mem_reverse, List.mem_insertionSort, List.mem_filter] at hq
    obtain ⟨hmem, -⟩ := hq
    rw [exceed_counts, List.mem_map] at hmem
    obtain ⟨p, -, rfl⟩ := hmem
    calc exceed_count p.2 s e ≤ (window_slice p.2 s e).length := List.countP_le_length _
    _ ≤ e - s := List.length_take_le _ _

/-- C2 counterexample: endpoints 0 and 1 both exceed the rise threshold in
all 12 window buckets, so their exceed counts tie at 12; the descending sort
— pandas reverses the ascending argsort — emits them as `[(1, 12), (0, 12)]`,
the reverse of endpoint-identity order, refuting the claim that ties are
broken by endpoint identity order. -/
theorem c2_candidate_detector_counterexample :
    ip_pirate_list c2TieEps 0 12 = [(1, 12), (0, 12)] ∧
    ip_pirate_list c2TieEps 0 12 ≠ [(0, 12), (1, 12)] := by
  have h : ip_pirate_list c2TieEps 0 12 = [(1, 12), (0, 12)] := by
    norm_num [ip_pirate_list, exceed_counts, exceed_count, window_slice, exceeds,
      c2TieEps, List.replicate, List.countP, List.countP.go, List.insertionSort,
      List.orderedInsert, List.filter, countLe]
  refine ⟨h, ?_⟩
  rw [h]
  decide

theorem c2_candidate_detector_witness :
    ip_pirate_list c2Eps 0 12 = [(0, 12)] ∧
    ((0, 12) ∈ ip_pirate_list c2Eps 0 12 ↔
      (0, 12) ∈ exceed_counts c2Eps 0 12 ∧ 10 < 12) ∧
    (0, 12) ∈ exceed_counts c2Eps 0 12 ∧
    12 ≤ 12 - 0 :=
  ⟨by norm_num [ip_pirate_list, exceed_counts, exceed_count, window_slice, exceeds,
      c2Eps, List.replicate, List.countP, List.countP.go, List.insertionSort,
      List.orderedInsert, List.filter, countLe],
   (c2_candidate_detector c2Eps 0 12).2.1 (0, 12),
   by norm_num [exceed_counts, exceed_count, window_slice, exceeds, c2Eps,
      List.replicate, List.countP, List.countP.go],
   (c2_candidate_detector c2Eps 0 12).2.2.2.2 (0, 12)
     (by norm_num [ip_pirate_list, exceed_counts, exceed_count, window_slice, exceeds,
        c2Eps, List.replicate, List.countP, List.countP.go, List.insertionSort,
        List.orderedInsert, List.filter, countLe])⟩

/-! ### C10: the scanned window is half-open and clamped -/

/-- C10 (amended): the detector scans the half-open positional range
`[start, end)` clamped to the series length — the i-th scanned bucket is the
series value at position `start + i` with `start + i < end`, so the bucket at
position `end` is never counted — and the scan covers exactly `end - start`
buckets (27 for the selector's windows) whenever the series has at least
`end` rows. -/
theorem c10_window_scan (d : List (Option ℚ)) (s e : ℕ) (h : s ≤ e) :
    (window_slice d s e).length = min (e - s) (d.length - s) ∧
    (∀ i, (hi : i < (window_slice d s e).length) →
        (window_slice d s e).get ⟨i, hi⟩ = d.getD (s + i) none ∧ s + i < e) ∧
    (e ≤ d.length → (window_slice d s e).length = e - s) := by
  have hlen : (window_slice d s e).length = min (e - s) (d.length - s) := by
    simp [window_slice, List.length_take, List.length_drop]
  refine ⟨hlen, ?_, ?_⟩
  · intro i hi
    have hi' : i < min (e - s) (d.length - s) := hlen ▸ hi
    have hsi : s + i < d.length := by omega
    constructor
    · have hget : (window_slice d s e).get ⟨i, hi⟩ = (window_slice d s e)[i] := rfl
      rw [hget]
      simp only [window_slice]
      rw [List.getElem_take, List.getElem_drop, List.getD_eq_getElem d none hsi]
    · omega
  · intro he
    rw [hlen]
    omega

theorem c10_window_scan_witness :
    174 ≤ 201 ∧
    (window_slice (List.replicate 300 (some (0 : ℚ))) 174 201).length = 201 - 174 ∧
    201 - 174 = 27 :=
  ⟨by norm_num,
   ((c10_window_scan (List.replicate 300 (some (0 : ℚ))) 174 201 (by norm_num)).2.2
     (by rw [List.length_replicate]; norm_num)),
   by norm_num⟩

/-- C10 counterexample: for the kickoff-15:00 window `[174, 201)` and a
differenced series of only 5 rows, the detector scans 0 buckets, not
`end_index - start_index = 27` — positional slicing clamps to the series
length, so the claim that every window scans exactly 27 buckets is false. -/
theorem c10_window_scan_counterexample :
    (201 : ℕ) - 174 = 27 ∧
    (window_slice (List.replicate 5 (some (0 : ℚ))) 174 201).length = 0 := by
  constructor
  · norm_num
  · simp [window_slice, List.length_take, List.length_drop, List.length_replicate]

/-! ### C8: the metadata join drops nothing and null-fills nothing -/

theorem drop_dup_cover : ∀ (l : List RawRow) (r : RawRow), r ∈ l →
    ∃ b ∈ drop_dup_keep_last l, b.ip = r.ip := by
  intro l
  induction l with
  | nil => intro r hr; exact absurd hr (List.not_mem_nil r)
  | cons x xs ih =>
    intro r hr
    by_cases hany : xs.any (fun s => decide (s.ip = x.ip))
    · rw [drop_dup_keep_last, if_pos hany]
      rcases List.mem_cons.mp hr with hrx | hrxs
      · obtain ⟨s, hs, hsip⟩ := List.any_eq_true.mp hany
        rw [decide_eq_true_eq] at hsip
        obtain ⟨b, hb, hbip⟩ := ih s hs
        exact ⟨b, hb, by rw [hbip, hsip, hrx]⟩
      · exact ih r hrxs
    · rw [drop_dup_keep_last, if_neg hany]
      rcases List.mem_cons.mp hr with hrx | hrxs
      · exact ⟨x, List.mem_cons_self _ _, by rw [hrx]⟩
      · obtain ⟨b, hb, hbip⟩ := ih r hrxs
        exact ⟨b, List.mem_cons_of_mem _ hb, hbip⟩

theorem base_df_cover (rows : List RawRow) (r : RawRow) (hr : r ∈ rows) :
    ∃ b ∈ base_df rows, b.ip = r.ip := by
  have hmem : r ∈ sort_by_asn rows := by
    rw [sort_by_asn, List.mem_insertionSort]
    exact hr
  exact drop_dup_cover _ r hmem

theorem clean_rows_ip (rows : List RawRow) (c : CleanRow) (hc : c ∈ clean_rows rows) :
    ∃ raw ∈ rows, raw.ip = c.ip := by
  rw [clean_rows, List.mem_map] at hc
  obtain ⟨k, hk, rfl⟩ := hc
  rw [List.mem_dedup, List.mem_map] at hk
  obtain ⟨raw, hraw, rfl⟩ := hk
  exact ⟨raw, hraw, rfl⟩

theorem processed_rows_ip (clean : List CleanRow) (ko : ℤ) (p : ProcRow)
    (hp : p ∈ processed_rows clean ko) : ∃ r ∈ clean, r.ip = p.ip := by
  rw [processed_rows, List.mem_map] at hp
  obtain ⟨r, hr, rfl⟩ := hp
  rw [match_window, List.mem_filter] at hr
  exact ⟨r, hr.1, rfl⟩

/-- C8: every endpoint present in the attributed (processed) traffic has a
canonical metadata row — the error condition "endpoint with no metadata row"
is unreachable because the metadata comes embedded in the same traffic input
— and the `on='ip'` join drops no attributed row and takes every output
row's identity/ASN context verbatim from that canonical row (never from
null-filling). -/
theorem c8_metadata_join (rows : List RawRow) (ko : ℤ) (season : String) (gw : ℤ) :
    (∀ p ∈ processed_rows (clean_rows rows) ko, ∃ b ∈ base_df rows, b.ip = p.ip) ∧
    (∀ p ∈ processed_rows (clean_rows rows) ko,
        ∃ o ∈ construct_output_df rows ko season gw,
          o.ip = p.ip ∧ o.timestamp = p.timestamp ∧ o.gigabits = p.gigabits ∧
          o.piracy_gigabits = p.piracy_gigabits ∧ o.gbps = p.gbps ∧
          o.piracy_gbps = p.piracy_gbps) ∧
    (∀ o ∈ construct_output_df rows ko season gw,
        ∃ b ∈ base_df rows,
          o.ip = b.ip ∧ o.asn = b.asn ∧ o.as_name = b.as_name ∧
          o.analyse = b.analyse ∧ o.vpn = b.vpn ∧ o.vpn_name = b.vpn_name ∧
          o.season = season ∧ o.game_week = gw ∧ o.ko_timestamp = ko) := by
  have hcov : ∀ p ∈ processed_rows (clean_rows rows) ko,
      ∃ b ∈ base_df rows, b.ip = p.ip := by
    intro p hp
    obtain ⟨r, hr, hrip⟩ := processed_rows_ip _ ko p hp
    obtain ⟨raw, hraw, hrawip⟩ := clean_rows_ip rows r hr
    obtain ⟨b, hb, hbip⟩ := base_df_cover rows raw hraw
    exact ⟨b, hb, by rw [hbip, hrawip, hrip]⟩
  refine ⟨hcov, ?_, ?_⟩
  · intro p hp
    obtain ⟨b, hb, hbip⟩ := hcov p hp
    refine ⟨join_row b season gw ko p, ?_, hbip, rfl, rfl, rfl, rfl, rfl⟩
    rw [construct_output_df, List.mem_flatMap]
    refine ⟨b, hb, ?_⟩
    rw [List.mem_map]
    refine ⟨p, ?_, rfl⟩
    rw [List.mem_filter]
    exact ⟨hp, by simp [hbip]⟩
  · intro o ho
    rw [construct_output_df, List.mem_flatMap] at ho
    obtain ⟨b, hb, hmem⟩ := ho
    rw [List.mem_map] at hmem
    obtain ⟨p, -, rfl⟩ := hmem
    exact ⟨b, hb, rfl, rfl, rfl, rfl, rfl, rfl, rfl, rfl, rfl⟩

theorem c8_metadata_join_witness :
    c8Proc ∈ processed_rows (clean_rows c8Rows) 0 ∧
    (∃ b ∈ base_df c8Rows, b.ip = c8Proc.ip) :=
  ⟨by norm_num [processed_rows, match_window, noise_window, noise_df, lookup_noise,
      clean_rows, c8Rows, c8Proc, List.filter, List.find?, List.dedup,
      List.dedup_cons_of_mem, List.dedup_cons_of_not_mem],
   (c8_metadata_join c8Rows 0 "s" 0).1 c8Proc
     (by norm_num [processed_rows, match_window, noise_window, noise_df, lookup_noise,
        clean_rows, c8Rows, c8Proc, List.filter, List.find?, List.dedup,
        List.dedup_cons_of_mem, List.dedup_cons_of_not_mem])⟩

/-! ### C9: metadata canonicalization -/

theorem drop_dup_subset : ∀ (l : List RawRow) (b : RawRow),
    b ∈ drop_dup_keep_last l → b ∈ l := by
  intro l
  induction l with
  | nil =>
    intro b hb
    rw [drop_dup_keep_last] at hb
    exact absurd hb (List.not_mem_nil b)
  | cons x xs ih =>
    intro b hb
    by_cases hany : xs.any (fun s => decide (s.ip = x.ip))
    · rw [drop_dup_keep_last, if_pos hany] at hb
      exact List.mem_cons_of_mem _ (ih b hb)
    · rw [drop_dup_keep_last, if_neg hany] at hb
      rcases List.mem_cons.mp hb with h | h
      · rw [h]
        exact List.mem_cons_self _ _
      · exact List.mem_cons_of_mem _ (ih b h)

theorem drop_dup_split : ∀ (l : List RawRow) (b : RawRow),
    b ∈ drop_dup_keep_last l →
    ∃ l₁ l₂, l = l₁ ++ b :: l₂ ∧ ∀ s ∈ l₂, s.ip ≠ b.ip := by
  intro l
  induction l with
  | nil =>
    intro b hb
    rw [drop_dup_keep_last] at hb
    exact absurd hb (List.not_mem_nil b)
  | cons x xs ih =>
    intro b hb
    by_cases hany : xs.any (fun s => decide (s.ip = x.ip))
    · rw [drop_dup_keep_last, if_pos hany] at hb
      obtain ⟨l₁, l₂, heq, hno⟩ := ih b hb
      exact ⟨x :: l₁, l₂, by rw [heq]; rfl, hno⟩
    · rw [drop_dup_keep_last, if_neg hany] at hb
      rcases List.mem_cons.mp hb with h | h
      · refine ⟨[], xs, by rw [h]; rfl, ?_⟩
        simp only [List.any_eq_true, decide_eq_true_eq, not_exists] at hany
        intro s hs hsip
        rw [h] at hsip
        exact absurd hsip (by simpa using fun hx => hany s ⟨hs, hx⟩)
      · obtain ⟨l₁, l₂, heq, hno⟩ := ih b h
        exact ⟨x :: l₁, l₂, by rw [heq]; rfl, hno⟩

theorem drop_dup_ip_nodup : ∀ l : List RawRow,
    ((drop_dup_keep_last l).map (fun b => b.ip)).Nodup := by
  intro l
  induction l with
  | nil =>
    rw [drop_dup_keep_last]
    exact List.nodup_nil
  | cons x xs ih =>
    by_cases hany : xs.any (fun s => decide (s.ip = x.ip))
    · rw [drop_dup_keep_last, if_pos hany]
      exact ih
    · rw [drop_dup_keep_last, if_neg hany, List.map_cons, List.nodup_cons]
      refine ⟨?_, ih⟩
      intro hmem
      rw [List.mem_map] at hmem
      obtain ⟨b, hb, hbip⟩ := hmem
      have hbxs := drop_dup_subset xs b hb
      simp only [List.any_eq_true, decide_eq_true_eq, not_exists] at hany
      exact hany b ⟨hbxs, hbip⟩

/-- C9 (amended): canonicalization yields exactly one metadata row per
endpoint (the ip column of `base_df` is duplicate-free and covers exactly the
input endpoints), and the kept row has a non-null `asn` whenever the endpoint
has any raw row with non-null `asn`; the kept row's `as_name` is whatever
accompanies the kept row — it is not independently preferred non-null. -/
theorem c9_metadata_canonical (rows : List RawRow) :
    ((base_df rows).map (fun b => b.ip)).Nodup ∧
    (∀ ip, (∃ r ∈ rows, r.ip = ip) ↔ ∃ b ∈ base_df rows, b.ip = ip) ∧
    (∀ b ∈ base_df rows, ∀ r ∈ rows, r.ip = b.ip → r.asn ≠ none → b.asn ≠ none) := by
  refine ⟨drop_dup_ip_nodup _, ?_, ?_⟩
  · intro ip
    constructor
    · rintro ⟨r, hr, rfl⟩
      exact base_df_cover rows r hr
    · rintro ⟨b, hb, rfl⟩
      have hbs := drop_dup_subset _ b hb
      rw [sort_by_asn, List.mem_insertionSort] at hbs
      exact ⟨b, hbs, rfl⟩
  · intro b hb r hr hip hasn hbnone
    obtain ⟨l₁, l₂, heq, hno⟩ := drop_dup_split _ b hb
    have hrs : r ∈ sort_by_asn rows := by
      rw [sort_by_asn, List.mem_insertionSort]
      exact hr
    have hsorted : List.Sorted asnRel (sort_by_asn rows) :=
      List.sorted_insertionSort asnRel rows
    rw [heq] at hrs hsorted
    rcases List.mem_append.mp hrs with h1 | h2
    · have hpw := (List.pairwise_append.mp hsorted).2.2 r h1 b (List.mem_cons_self _ _)
      rw [asnRel] at hpw
      cases hasn' : r.asn with
      | none => exact hasn hasn'
      | some x =>
        rw [hasn', hbnone] at hpw
        exact Bool.noConfusion hpw
    · rcases List.mem_cons.mp h2 with h | h
      · exact hasn (by rw [h, hbnone])
      · exact hno r h hip

theorem c9_base_df_eval : base_df c9Rows = [c9RowB] := by
  rfl

/-- C9 counterexample: endpoint 0 has a raw row with non-null `as_name`
(`c9RowA`), yet the canonical row kept for endpoint 0 (`c9RowB`, kept because
its `asn` 5 sorts last) has a null `as_name` — the claim that the kept row
prefers a non-null `as_name` whenever one exists is false. -/
theorem c9_metadata_canonical_counterexample :
    (∃ r ∈ c9Rows, r.ip = 0 ∧ r.as_name ≠ none) ∧
    ¬ (∀ b ∈ base_df c9Rows, b.ip = 0 → b.as_name ≠ none) := by
  constructor
  · exact ⟨c9RowA, List.mem_cons_self _ _, rfl, by decide⟩
  · intro hall
    exact hall c9RowB (by rw [c9_base_df_eval]; exact List.mem_cons_self _ _) rfl rfl

theorem c9_metadata_canonical_witness :
    ((base_df c9Rows).map (fun b => b.ip)).Nodup ∧ c9RowB.asn ≠ none :=
  ⟨(c9_metadata_canonical c9Rows).1,
   (c9_metadata_canonical c9Rows).2.2 c9RowB
     (by rw [c9_base_df_eval]; exact List.mem_cons_self _ _)
     c9RowA (List.mem_cons_self _ _) rfl (by decide)⟩
